import Mathlib

/-!
# StudentDB: a shallow embedding of `studentdb.c`

The program keeps fixed-size `Student` records in the binary file
`students.dat` and offers five operations on it: `addStudent`,
`searchStudent`, `displayAllStudents`, `deleteStudent` and `calculateStats`.

Modelling conventions.

* A file is the sequence of whole `Student` records it holds.  Every write of
  the program is an `fwrite` of one whole record, so every file the program
  produces has this shape.
* `fopen(..., "rb")` succeeds exactly when the file exists.  Whether
  `fopen(DATABASE_FILE, "ab")` and `fopen("temp.dat", "wb")` succeed is part of
  the environment and recorded in the file-system state.  Library calls whose
  result the program never inspects (`fread` errors, `fwrite`, `fclose`,
  `remove`, `rename`) are taken to succeed.
* The values the program reads with `scanf` (the id to look for, the fields of
  the new record) are arguments of the operations.
* What an operation prints is returned as data: the record shown by
  `searchStudent`, the rows shown by `displayAllStudents`, the four numbers
  shown by `calculateStats` (before `printf` formats them).
* `int` values are integers; `count++` is not wrapped (signed overflow is
  undefined in C and needs more than `2^31` records).
* A `float` that is finite is the rational number it denotes, compared
  numerically.  NaN and infinite `gpa` fields are outside the model.  Float
  addition and division are the exact operation followed by IEEE-754 binary32
  rounding to nearest, ties to even (`FLT_EVAL_METHOD` 0), with overflow to an
  infinity made explicit in the type `F32`.
-/

namespace StudentDB

/-! ## Data model -/

/-- The `Student` struct: one record of the database file. -/
structure Student where
  student_id : Int
  name : String
  course : String
  gpa : ℚ
  year : Int
deriving DecidableEq

/-- The part of the file system the program touches: `students.dat`
(`DATABASE_FILE`), `temp.dat`, and whether the two opens for writing succeed. -/
structure FileSystem where
  database : Option (List Student)
  temp : Option (List Student)
  appendOk : Bool
  tempOk : Bool
deriving DecidableEq

/-- The records of the store: those of `students.dat`, none when the file is absent. -/
def records (fs : FileSystem) : List Student :=
  fs.database.getD []

/-! ## Binary32 arithmetic -/

/-- Two to an integer power. -/
def pow2 (e : Int) : ℚ :=
  if 0 ≤ e then ((2 ^ e.toNat : Nat) : ℚ) else 1 / ((2 ^ (-e).toNat : Nat) : ℚ)

/-- Halving `n` until it is below 2, at most `steps` times: the number of halvings. -/
def halvings : Nat → Nat → Nat
  | 0, _ => 0
  | steps + 1, n => if n < 2 then 0 else halvings steps (n / 2) + 1

/-- The position of the leading bit of a positive natural number. -/
def floorLog2 (n : Nat) : Nat :=
  halvings n n

/-- The exponent `e` with `2^e ≤ a < 2^(e+1)`, for positive `a`. -/
def ilog2 (a : ℚ) : Int :=
  let e0 : Int := (floorLog2 a.num.natAbs : Int) - (floorLog2 a.den : Int)
  if pow2 e0 ≤ a then e0 else e0 - 1

/-- Nearest integer to a non-negative rational, ties to the even neighbour. -/
def roundHalfEven (n : ℚ) : Int :=
  let f := n.floor
  let r := n - f
  if r < 1 / 2 then f
  else if 1 / 2 < r then f + 1
  else if f % 2 = 0 then f else f + 1

/-- Rounding to the binary32 grid (24 significant bits, least exponent `-126`,
subnormals included), to nearest with ties to even, exponent unbounded above. -/
def f32Round (q : ℚ) : ℚ :=
  if q = 0 then 0 else
  let a := |q|
  let e := max (ilog2 a) (-126)
  let ulp := pow2 (e - 23)
  let r := (roundHalfEven (a / ulp) : ℚ) * ulp
  if q < 0 then -r else r

/-- The largest finite binary32 value, `(2^24 - 1) * 2^104`. -/
def FLT_MAX : ℚ := (2 ^ 24 - 1) * 2 ^ 104

/-- The result of a `float` computation on finite operands: a finite value or
an infinity of the given sign. -/
inductive F32 where
  | finite (q : ℚ)
  | infinite (negative : Bool)
deriving DecidableEq

/-- Rounding of an exact result to `float`, overflow included. -/
def f32 (q : ℚ) : F32 :=
  let r := f32Round q
  if FLT_MAX < |r| then F32.infinite (decide (r < 0)) else F32.finite r

/-- The `float` sum `total + gpa` of a running total and a finite `float`. -/
def f32Add (total : F32) (gpa : ℚ) : F32 :=
  match total with
  | F32.finite t => f32 (t + gpa)
  | F32.infinite s => F32.infinite s

/-- The conversion `(float) count` of a positive `int`. -/
def f32OfInt (count : Int) : ℚ :=
  f32Round count

/-- The `float` quotient `total / count` for a positive `int` count, which C
converts to `float` first. -/
def f32DivInt (total : F32) (count : Int) : F32 :=
  match total with
  | F32.finite t => f32 (t / f32OfInt count)
  | F32.infinite s => F32.infinite s

/-! ## Operations -/

/-- The file part of `addStudent`: append `new_student` to `students.dat`,
creating the file when absent.  Returns 1, or 0 when the file cannot be opened. -/
def addStudent (new_student : Student) (fs : FileSystem) : Int × FileSystem :=
  if fs.appendOk then
    (1, { fs with database := some (records fs ++ [new_student]) })
  else
    (0, fs)

/-- What `searchStudent` leaves behind: its return value, the record it
printed, and the records of the stream it had not read when it closed the file. -/
structure SearchOutcome where
  found : Int
  printed : Option Student
  unread : List Student
deriving DecidableEq

/-- The read loop of `searchStudent`, with its `break` on the first match. -/
def searchLoop (search_id : Int) : List Student → SearchOutcome
  | [] => { found := 0, printed := none, unread := [] }
  | student :: rest =>
    if student.student_id = search_id then
      { found := 1, printed := some student, unread := rest }
    else
      searchLoop search_id rest

/-- The operation `searchStudent`, for the id read from the user. -/
def searchStudent (search_id : Int) (fs : FileSystem) : SearchOutcome × FileSystem :=
  match fs.database with
  | none => ({ found := 0, printed := none, unread := [] }, fs)
  | some file => (searchLoop search_id file, fs)

/-- The read loop of `displayAllStudents`: the rows printed so far and `count`. -/
def displayLoop : List Student → List Student × Int → List Student × Int
  | [], st => st
  | student :: rest, (rows, count) => displayLoop rest (rows ++ [student], count + 1)

/-- The operation `displayAllStudents`: the rows it prints, the count it
returns, and the file system. -/
def displayAllStudents (fs : FileSystem) : List Student × Int × FileSystem :=
  match fs.database with
  | none => ([], 0, fs)
  | some file =>
    let (rows, count) := displayLoop file ([], 0)
    (rows, count, fs)

/-- The copy loop of `deleteStudent`: the contents written to `temp.dat` so far
and the flag `found`. -/
def deleteLoop (delete_id : Int) : List Student → List Student × Int → List Student × Int
  | [], st => st
  | student :: rest, (temp_file, found) =>
    if student.student_id ≠ delete_id then
      deleteLoop delete_id rest (temp_file ++ [student], found)
    else
      deleteLoop delete_id rest (temp_file, 1)

/-- The operation `deleteStudent`, for the id read from the user. -/
def deleteStudent (delete_id : Int) (fs : FileSystem) : Int × FileSystem :=
  match fs.database with
  | none => (0, fs)
  | some file =>
    if fs.tempOk then
      let (temp_file, found) := deleteLoop delete_id file ([], 0)
      if found ≠ 0 then
        (found, { fs with database := some temp_file, temp := none })
      else
        (found, { fs with temp := none })
    else
      (0, fs)

/-- The local variables of `calculateStats`. -/
structure StatsState where
  count : Int
  total_gpa : F32
  highest_gpa : ℚ
  lowest_gpa : ℚ
deriving DecidableEq

/-- The read loop of `calculateStats`. -/
def statsLoop : List Student → StatsState → StatsState
  | [], st => st
  | student :: rest, st =>
    statsLoop rest
      { count := st.count + 1
        total_gpa := f32Add st.total_gpa student.gpa
        highest_gpa := if student.gpa > st.highest_gpa then student.gpa else st.highest_gpa
        lowest_gpa := if student.gpa < st.lowest_gpa then student.gpa else st.lowest_gpa }

/-- What `calculateStats` prints. -/
inductive StatsOutput where
  | noDatabaseFile
  | noStudents
  | report (count : Int) (average : F32) (highest lowest : ℚ)
deriving DecidableEq

/-- The operation `calculateStats`. -/
def calculateStats (fs : FileSystem) : StatsOutput × FileSystem :=
  match fs.database with
  | none => (StatsOutput.noDatabaseFile, fs)
  | some file =>
    let st := statsLoop file
      { count := 0, total_gpa := F32.finite 0, highest_gpa := 0, lowest_gpa := 4 }
    if st.count > 0 then
      (StatsOutput.report st.count (f32DivInt st.total_gpa st.count) st.highest_gpa
        st.lowest_gpa, fs)
    else
      (StatsOutput.noStudents, fs)


/-! ## Specification side of the statistics -/

/-- Specification side: `M` is the greatest gpa among the records of `file`. -/
def IsGreatestGpa (file : List Student) (M : ℚ) : Prop :=
  (∃ s ∈ file, s.gpa = M) ∧ ∀ s ∈ file, s.gpa ≤ M

/-- Specification side: `m` is the least gpa among the records of `file`. -/
def IsLeastGpa (file : List Student) (m : ℚ) : Prop :=
  (∃ s ∈ file, s.gpa = m) ∧ ∀ s ∈ file, m ≤ s.gpa

/-- Specification side: the average of a list of gpas is their `float` sum, taken in
order from `0.0`, divided by their number with `float` division. -/
def specAverage (gpas : List ℚ) : F32 :=
  f32DivInt (gpas.foldl f32Add (F32.finite 0)) gpas.length

/-! ## Example data -/

/-- A file system holding `students.dat` with the given records, no `temp.dat`,
and both opens for writing possible. -/
def store (file : List Student) : FileSystem :=
  { database := some file, temp := none, appendOk := true, tempOk := true }

/-- A file system without `students.dat`. -/
def noStore : FileSystem :=
  { database := none, temp := none, appendOk := true, tempOk := true }

def alice : Student :=
  { student_id := 1, name := "Alice", course := "Physics", gpa := 3, year := 1 }

def bob : Student :=
  { student_id := 2, name := "Bob", course := "History", gpa := 4, year := 2 }

def carol : Student :=
  { student_id := 3, name := "Carol", course := "Biology", gpa := 2, year := 3 }

def dave : Student :=
  { student_id := 7, name := "Dave", course := "Music", gpa := 5 / 2, year := 4 }

def erin : Student :=
  { student_id := 7, name := "Erin", course := "Chemistry", gpa := 7 / 2, year := 2 }

def frank : Student :=
  { student_id := 8, name := "Frank", course := "Law", gpa := 5, year := 1 }

def grace : Student :=
  { student_id := 9, name := "Grace", course := "Art", gpa := -1, year := 3 }

/-! ## Loop invariants -/

theorem deleteLoop_fst (delete_id : Int) (file temp_file : List Student) (found : Int) :
    (deleteLoop delete_id file (temp_file, found)).1 =
      temp_file ++ file.filter (fun s => decide (s.student_id ≠ delete_id)) := by
  induction file generalizing temp_file found with
  | nil => simp [deleteLoop]
  | cons s rest ih =>
    by_cases h : s.student_id = delete_id
    · simp [deleteLoop, h, ih]
    · simp [deleteLoop, h, ih]

theorem deleteLoop_snd_of_mem (delete_id : Int) (file temp_file : List Student) (found : Int)
    (h : ∃ s ∈ file, s.student_id = delete_id) :
    (deleteLoop delete_id file (temp_file, found)).2 = 1 := by
  induction file generalizing temp_file found with
  | nil => simp at h
  | cons s rest ih =>
    by_cases hs : s.student_id = delete_id
    · simp only [deleteLoop, hs, ne_eq, not_true_eq_false, if_false]
      by_cases hr : ∃ t ∈ rest, t.student_id = delete_id
      · exact ih _ _ hr
      · have : ∀ (tf : List Student), (deleteLoop delete_id rest (tf, 1)).2 = 1 := by
          intro tf
          clear ih h
          induction rest generalizing tf with
          | nil => simp [deleteLoop]
          | cons t rest2 ih2 =>
            have ht : t.student_id ≠ delete_id := fun e => hr ⟨t, by simp, e⟩
            simp only [deleteLoop, ne_eq, ht, not_false_eq_true, if_true]
            exact ih2 (fun ⟨u, hu, e⟩ => hr ⟨u, by simp [hu], e⟩) _
        exact this _
    · have hr : ∃ t ∈ rest, t.student_id = delete_id := by
        obtain ⟨t, ht, e⟩ := h
        rcases List.mem_cons.mp ht with rfl | ht
        · exact absurd e hs
        · exact ⟨t, ht, e⟩
      simp only [deleteLoop, ne_eq, hs, not_false_eq_true, if_true]
      exact ih _ _ hr

theorem deleteLoop_snd_of_not_mem (delete_id : Int) (file temp_file : List Student) (found : Int)
    (h : ∀ s ∈ file, s.student_id ≠ delete_id) :
    (deleteLoop delete_id file (temp_file, found)).2 = found := by
  induction file generalizing temp_file with
  | nil => simp [deleteLoop]
  | cons s rest ih =>
    have hs : s.student_id ≠ delete_id := h s (by simp)
    simp only [deleteLoop, ne_eq, hs, not_false_eq_true, if_true]
    exact ih _ (fun t ht => h t (by simp [ht]))

/-- The whole of `deleteStudent` on an existing file with a creatable temporary file,
when some record matches. -/
theorem deleteStudent_of_mem (delete_id : Int) (fs : FileSystem) (file : List Student)
    (hdb : fs.database = some file) (htmp : fs.tempOk = true)
    (h : ∃ s ∈ file, s.student_id = delete_id) :
    deleteStudent delete_id fs =
      (1, { fs with
              database := some (file.filter (fun s => decide (s.student_id ≠ delete_id)))
              temp := none }) := by
  have h1 := deleteLoop_fst delete_id file [] 0
  have h2 := deleteLoop_snd_of_mem delete_id file [] 0 h
  unfold deleteStudent
  rw [hdb]
  simp only [htmp, if_true]
  rcases hl : deleteLoop delete_id file ([], 0) with ⟨t, f⟩
  rw [hl] at h1 h2
  simp only at h1 h2
  subst h2
  simp [h1]

/-- The whole of `deleteStudent` when no record of the file matches. -/
theorem deleteStudent_of_not_mem (delete_id : Int) (fs : FileSystem) (file : List Student)
    (hdb : fs.database = some file) (htmp : fs.tempOk = true)
    (h : ∀ s ∈ file, s.student_id ≠ delete_id) :
    deleteStudent delete_id fs = (0, { fs with temp := none }) := by
  have h2 := deleteLoop_snd_of_not_mem delete_id file [] 0 h
  unfold deleteStudent
  rw [hdb]
  simp only [htmp, if_true]
  rcases hl : deleteLoop delete_id file ([], 0) with ⟨t, f⟩
  rw [hl] at h2
  simp only at h2
  subst h2
  simp


theorem searchLoop_of_not_mem (search_id : Int) (file : List Student)
    (h : ∀ s ∈ file, s.student_id ≠ search_id) :
    searchLoop search_id file = { found := 0, printed := none, unread := [] } := by
  induction file with
  | nil => rfl
  | cons s rest ih =>
    have hs : s.student_id ≠ search_id := h s (by simp)
    simp only [searchLoop, hs, if_false]
    exact ih (fun t ht => h t (by simp [ht]))

theorem searchLoop_of_split (search_id : Int) (pre post : List Student) (r : Student)
    (hpre : ∀ s ∈ pre, s.student_id ≠ search_id) (hr : r.student_id = search_id) :
    searchLoop search_id (pre ++ r :: post) =
      { found := 1, printed := some r, unread := post } := by
  induction pre with
  | nil => simp [searchLoop, hr]
  | cons s rest ih =>
    have hs : s.student_id ≠ search_id := hpre s (by simp)
    simp only [List.cons_append, searchLoop, hs, if_false]
    exact ih (fun t ht => hpre t (by simp [ht]))

/-- A list with a record of the given id splits at the first such record. -/
theorem exists_first_match (search_id : Int) (file : List Student)
    (h : ∃ s ∈ file, s.student_id = search_id) :
    ∃ pre r post, file = pre ++ r :: post ∧ (∀ s ∈ pre, s.student_id ≠ search_id) ∧
      r.student_id = search_id := by
  induction file with
  | nil => simp at h
  | cons s rest ih =>
    by_cases hs : s.student_id = search_id
    · exact ⟨[], s, rest, rfl, by simp, hs⟩
    · have hrest : ∃ t ∈ rest, t.student_id = search_id := by
        obtain ⟨t, ht, e⟩ := h
        rcases List.mem_cons.mp ht with rfl | ht
        · exact absurd e hs
        · exact ⟨t, ht, e⟩
      obtain ⟨pre, r, post, hsplit, hpre, hr⟩ := ih hrest
      refine ⟨s :: pre, r, post, by simp [hsplit], ?_, hr⟩
      intro t ht
      rcases List.mem_cons.mp ht with rfl | ht
      · exact hs
      · exact hpre t ht

theorem displayLoop_eq (file rows : List Student) (count : Int) :
    displayLoop file (rows, count) = (rows ++ file, count + file.length) := by
  induction file generalizing rows count with
  | nil => simp [displayLoop]
  | cons s rest ih =>
    rw [displayLoop, ih]
    refine Prod.ext (by simp) ?_
    simp only [List.length_cons, Nat.cast_succ]
    ring

theorem statsLoop_count (file : List Student) (st : StatsState) :
    (statsLoop file st).count = st.count + file.length := by
  induction file generalizing st with
  | nil => simp [statsLoop]
  | cons s rest ih =>
    simp only [statsLoop, ih, List.length_cons, Nat.cast_succ]
    ring

theorem statsLoop_total (file : List Student) (st : StatsState) :
    (statsLoop file st).total_gpa = (file.map Student.gpa).foldl f32Add st.total_gpa := by
  induction file generalizing st with
  | nil => simp [statsLoop]
  | cons s rest ih => simp [statsLoop, ih]

theorem statsLoop_highest (file : List Student) (st : StatsState) :
    st.highest_gpa ≤ (statsLoop file st).highest_gpa ∧
    (∀ s ∈ file, s.gpa ≤ (statsLoop file st).highest_gpa) ∧
    ((statsLoop file st).highest_gpa = st.highest_gpa ∨
      ∃ s ∈ file, s.gpa = (statsLoop file st).highest_gpa) := by
  induction file generalizing st with
  | nil => simp [statsLoop]
  | cons s rest ih =>
    simp only [statsLoop]
    obtain ⟨h1, h2, h3⟩ := ih
      { count := st.count + 1
        total_gpa := f32Add st.total_gpa s.gpa
        highest_gpa := if s.gpa > st.highest_gpa then s.gpa else st.highest_gpa
        lowest_gpa := if s.gpa < st.lowest_gpa then s.gpa else st.lowest_gpa }
    simp only at h1 h2 h3
    by_cases hgt : s.gpa > st.highest_gpa
    · simp only [hgt, if_true] at h1 h2 h3 ⊢
      refine ⟨le_trans (le_of_lt hgt) h1, ?_, ?_⟩
      · intro t ht
        rcases List.mem_cons.mp ht with rfl | ht
        · exact h1
        · exact h2 t ht
      · rcases h3 with h3 | ⟨t, ht, e⟩
        · exact Or.inr ⟨s, by simp, h3.symm⟩
        · exact Or.inr ⟨t, by simp [ht], e⟩
    · simp only [hgt, if_false] at h1 h2 h3 ⊢
      refine ⟨h1, ?_, ?_⟩
      · intro t ht
        rcases List.mem_cons.mp ht with rfl | ht
        · exact le_trans (not_lt.mp hgt) h1
        · exact h2 t ht
      · rcases h3 with h3 | ⟨t, ht, e⟩
        · exact Or.inl h3
        · exact Or.inr ⟨t, by simp [ht], e⟩

theorem statsLoop_lowest (file : List Student) (st : StatsState) :
    (statsLoop file st).lowest_gpa ≤ st.lowest_gpa ∧
    (∀ s ∈ file, (statsLoop file st).lowest_gpa ≤ s.gpa) ∧
    ((statsLoop file st).lowest_gpa = st.lowest_gpa ∨
      ∃ s ∈ file, s.gpa = (statsLoop file st).lowest_gpa) := by
  induction file generalizing st with
  | nil => simp [statsLoop]
  | cons s rest ih =>
    simp only [statsLoop]
    obtain ⟨h1, h2, h3⟩ := ih
      { count := st.count + 1
        total_gpa := f32Add st.total_gpa s.gpa
        highest_gpa := if s.gpa > st.highest_gpa then s.gpa else st.highest_gpa
        lowest_gpa := if s.gpa < st.lowest_gpa then s.gpa else st.lowest_gpa }
    simp only at h1 h2 h3
    by_cases hlt : s.gpa < st.lowest_gpa
    · simp only [hlt, if_true] at h1 h2 h3 ⊢
      refine ⟨le_trans h1 (le_of_lt hlt), ?_, ?_⟩
      · intro t ht
        rcases List.mem_cons.mp ht with rfl | ht
        · exact h1
        · exact h2 t ht
      · rcases h3 with h3 | ⟨t, ht, e⟩
        · exact Or.inr ⟨s, by simp, h3.symm⟩
        · exact Or.inr ⟨t, by simp [ht], e⟩
    · simp only [hlt, if_false] at h1 h2 h3 ⊢
      refine ⟨h1, ?_, ?_⟩
      · intro t ht
        rcases List.mem_cons.mp ht with rfl | ht
        · exact le_trans h1 (not_lt.mp hlt)
        · exact h2 t ht
      · rcases h3 with h3 | ⟨t, ht, e⟩
        · exact Or.inl h3
        · exact Or.inr ⟨t, by simp [ht], e⟩


theorem searchLoop_of_nodup (file : List Student) (s : Student)
    (hnd : (file.map Student.student_id).Nodup) (hs : s ∈ file) :
    (searchLoop s.student_id file).printed = some s := by
  induction file with
  | nil => simp at hs
  | cons t rest ih =>
    rw [List.map_cons, List.nodup_cons] at hnd
    by_cases ht : t.student_id = s.student_id
    · rcases List.mem_cons.mp hs with rfl | hmem
      · simp [searchLoop]
      · exact absurd (ht ▸ List.mem_map_of_mem Student.student_id hmem) hnd.1
    · rcases List.mem_cons.mp hs with rfl | hmem
      · exact absurd rfl ht
      · simp only [searchLoop, ht, if_false]
        exact ih hnd.2 hmem

theorem filter_ne_of_not_mem (delete_id : Int) (l : List Student)
    (h : ∀ s ∈ l, s.student_id ≠ delete_id) :
    l.filter (fun s => decide (s.student_id ≠ delete_id)) = l := by
  rw [List.filter_eq_self]
  intro s hs
  simpa using h s hs

/-! ## The binary32 model -/

theorem pow2_eq_zpow (e : Int) : pow2 e = (2 : ℚ) ^ e := by
  unfold pow2
  split_ifs with h
  · lift e to ℕ using h
    simp
  · obtain ⟨n, rfl⟩ := Int.exists_eq_neg_ofNat (le_of_lt (not_le.mp h))
    simp [zpow_neg]

theorem halvings_spec (steps n : Nat) (hn : 0 < n) (hsteps : n ≤ steps) :
    2 ^ halvings steps n ≤ n ∧ n < 2 ^ (halvings steps n + 1) := by
  induction steps generalizing n with
  | zero => omega
  | succ k ih =>
    by_cases h2 : n < 2
    · simp only [halvings, h2, if_true]
      omega
    · simp only [halvings, h2, if_false]
      obtain ⟨hlo, hhi⟩ := ih (n / 2) (by omega) (by omega)
      constructor
      · calc 2 ^ (halvings k (n / 2) + 1) = 2 ^ halvings k (n / 2) * 2 := pow_succ _ _
          _ ≤ n / 2 * 2 := Nat.mul_le_mul_right 2 hlo
          _ ≤ n := Nat.div_mul_le_self n 2
      · have : n / 2 + 1 ≤ 2 ^ (halvings k (n / 2) + 1) := hhi
        calc n < (n / 2 + 1) * 2 := by omega
          _ ≤ 2 ^ (halvings k (n / 2) + 1) * 2 := Nat.mul_le_mul_right 2 this
          _ = 2 ^ (halvings k (n / 2) + 1 + 1) := (pow_succ _ _).symm

theorem floorLog2_spec (n : Nat) (hn : 0 < n) :
    2 ^ floorLog2 n ≤ n ∧ n < 2 ^ (floorLog2 n + 1) :=
  halvings_spec n n hn (le_refl n)

/-- The function `ilog2` finds the binade of a positive rational. -/
theorem ilog2_spec (a : ℚ) (ha : 0 < a) :
    pow2 (ilog2 a) ≤ a ∧ a < pow2 (ilog2 a + 1) := by
  have hnum : 0 < a.num := Rat.num_pos.mpr ha
  have hden : 0 < a.den := a.den_pos
  obtain ⟨n, hn⟩ := Int.eq_ofNat_of_zero_le (le_of_lt hnum)
  have hnpos : 0 < n := by
    rw [hn] at hnum
    exact_mod_cast hnum
  have hnat : a.num.natAbs = n := by
    rw [hn]
    rfl
  obtain ⟨hnlo, hnhi⟩ := floorLog2_spec n hnpos
  obtain ⟨hdlo, hdhi⟩ := floorLog2_spec a.den hden
  have hmul : a * a.den = n := by
    rw [Rat.mul_den_eq_num, hn, Int.cast_natCast]
  have hdq : (0 : ℚ) < a.den := by exact_mod_cast hden
  have hnlo' : (2 : ℚ) ^ floorLog2 n ≤ n := by exact_mod_cast hnlo
  have hnhi' : (n : ℚ) < 2 ^ (floorLog2 n + 1) := by exact_mod_cast hnhi
  have hdlo' : (2 : ℚ) ^ floorLog2 a.den ≤ a.den := by exact_mod_cast hdlo
  have hdhi' : (a.den : ℚ) < 2 ^ (floorLog2 a.den + 1) := by exact_mod_cast hdhi
  have h2 : (0 : ℚ) < 2 := by norm_num
  have hupper : a < (2 : ℚ) ^ ((floorLog2 n : Int) - (floorLog2 a.den : Int) + 1) := by
    have e : (2 : ℚ) ^ ((floorLog2 n : Int) - (floorLog2 a.den : Int) + 1) =
        2 ^ (floorLog2 n + 1) / 2 ^ floorLog2 a.den := by
      rw [show (floorLog2 n : Int) - (floorLog2 a.den : Int) + 1 =
        ((floorLog2 n + 1 : ℕ) : Int) - ((floorLog2 a.den : ℕ) : Int) by push_cast; ring]
      rw [zpow_sub₀ (ne_of_gt h2), zpow_natCast, zpow_natCast]
    rw [e, lt_div_iff₀ (pow_pos h2 _)]
    calc a * 2 ^ floorLog2 a.den ≤ a * a.den := mul_le_mul_of_nonneg_left hdlo' (le_of_lt ha)
      _ = n := hmul
      _ < 2 ^ (floorLog2 n + 1) := hnhi'
  have hlower : (2 : ℚ) ^ ((floorLog2 n : Int) - (floorLog2 a.den : Int) - 1) ≤ a := by
    have e : (2 : ℚ) ^ ((floorLog2 n : Int) - (floorLog2 a.den : Int) - 1) =
        2 ^ floorLog2 n / 2 ^ (floorLog2 a.den + 1) := by
      rw [show (floorLog2 n : Int) - (floorLog2 a.den : Int) - 1 =
        ((floorLog2 n : ℕ) : Int) - ((floorLog2 a.den + 1 : ℕ) : Int) by push_cast; ring]
      rw [zpow_sub₀ (ne_of_gt h2), zpow_natCast, zpow_natCast]
    rw [e, div_le_iff₀ (pow_pos h2 _)]
    calc (2 : ℚ) ^ floorLog2 n ≤ n := hnlo'
      _ = a * a.den := hmul.symm
      _ ≤ a * 2 ^ (floorLog2 a.den + 1) :=
        mul_le_mul_of_nonneg_left (le_of_lt hdhi') (le_of_lt ha)
  unfold ilog2
  simp only [hnat]
  split_ifs with hle
  · exact ⟨hle, by rw [pow2_eq_zpow]; exact hupper⟩
  · refine ⟨by rw [pow2_eq_zpow]; exact hlower, ?_⟩
    rw [sub_add_cancel]
    exact not_le.mp hle


/-- The function `roundHalfEven` returns a nearest integer. -/
theorem roundHalfEven_spec (n : ℚ) : |(roundHalfEven n : ℚ) - n| ≤ 1 / 2 := by
  have hfl : n.floor = ⌊n⌋ := rfl
  have h1 : ((⌊n⌋ : Int) : ℚ) ≤ n := Int.floor_le n
  have h2 : n < ((⌊n⌋ : Int) : ℚ) + 1 := Int.lt_floor_add_one n
  unfold roundHalfEven
  simp only [hfl]
  rw [abs_le]
  split_ifs with ha hb hc
  · constructor <;> linarith
  · push_cast
    constructor <;> linarith
  · constructor <;> linarith
  · push_cast
    constructor <;> linarith

/-- The function `roundHalfEven` leaves an integer as it is. -/
theorem roundHalfEven_intCast (m : Int) : roundHalfEven (m : ℚ) = m := by
  have hfl : (m : ℚ).floor = m := by
    show ⌊(m : ℚ)⌋ = m
    exact Int.floor_intCast m
  unfold roundHalfEven
  simp only [hfl, sub_self]
  norm_num

theorem pow2_pos (e : Int) : 0 < pow2 e := by
  rw [pow2_eq_zpow]
  exact zpow_pos (by norm_num) e

theorem pow2_add (x y : Int) : pow2 (x + y) = pow2 x * pow2 y := by
  rw [pow2_eq_zpow, pow2_eq_zpow, pow2_eq_zpow, zpow_add₀ (by norm_num)]

theorem pow2_natCast (d : Nat) : pow2 (d : Int) = (2 : ℚ) ^ d := by
  rw [pow2_eq_zpow, zpow_natCast]

theorem lt_of_pow2_lt_pow2 (x y : Int) (h : pow2 x < pow2 y) : x < y := by
  rw [pow2_eq_zpow, pow2_eq_zpow] at h
  exact (zpow_lt_zpow_iff_right₀ (by norm_num)).mp h

/-- Scaling by a unit `u`, rounding to an integer and scaling back stays within `u / 2`. -/
theorem roundHalfEven_scaled_error (a u : ℚ) (hu : 0 < u) :
    |(roundHalfEven (a / u) : ℚ) * u - a| ≤ u / 2 := by
  have hr := roundHalfEven_spec (a / u)
  have e : (roundHalfEven (a / u) : ℚ) * u - a = ((roundHalfEven (a / u) : ℚ) - a / u) * u := by
    field_simp
  rw [e, abs_mul, abs_of_pos hu]
  calc |(roundHalfEven (a / u) : ℚ) - a / u| * u ≤ 1 / 2 * u :=
        mul_le_mul_of_nonneg_right hr (le_of_lt hu)
    _ = u / 2 := by ring

/-- An integer multiple of the unit `u` is left as it is. -/
theorem roundHalfEven_scaled_exact (a u : ℚ) (hu : 0 < u) (j : Int) (h : a = j * u) :
    (roundHalfEven (a / u) : ℚ) * u = a := by
  have e : a / u = (j : ℚ) := by
    rw [h]
    field_simp
  rw [e, roundHalfEven_intCast, h]

/-- Rounding moves a value by at most half a unit in the last place. -/
theorem f32Round_error (q : ℚ) (hq : q ≠ 0) :
    |f32Round q - q| ≤ pow2 (max (ilog2 |q|) (-126) - 23) / 2 := by
  have hu := pow2_pos (max (ilog2 |q|) (-126) - 23)
  have hs := roundHalfEven_scaled_error |q| _ hu
  unfold f32Round
  simp only [hq, if_false]
  split_ifs with hneg
  · rw [abs_of_neg hneg] at hs ⊢
    rw [show -((roundHalfEven (-q / pow2 (max (ilog2 (-q)) (-126) - 23)) : ℚ) *
        pow2 (max (ilog2 (-q)) (-126) - 23)) - q =
        -((roundHalfEven (-q / pow2 (max (ilog2 (-q)) (-126) - 23)) : ℚ) *
        pow2 (max (ilog2 (-q)) (-126) - 23) - -q) by ring, abs_neg]
    exact hs
  · rw [abs_of_nonneg (not_lt.mp hneg)] at hs ⊢
    exact hs

/-- A value `m * 2^k` with `|m| < 2^24` and `k ≥ -149` is a binary32 number: rounding
leaves it as it is. -/
theorem f32Round_of_representable (m k : Int) (hm : |m| < 16777216) (hk : -149 ≤ k) :
    f32Round (m * pow2 k) = m * pow2 k := by
  by_cases hm0 : m = 0
  · simp [hm0, f32Round]
  have hk0 := pow2_pos k
  have hq : (m : ℚ) * pow2 k ≠ 0 :=
    mul_ne_zero (by exact_mod_cast hm0) (ne_of_gt hk0)
  have habs : |(m : ℚ) * pow2 k| = ((|m| : Int) : ℚ) * pow2 k := by
    rw [abs_mul, abs_of_pos hk0, Int.cast_abs]
  have hapos : 0 < |(m : ℚ) * pow2 k| := abs_pos.mpr hq
  obtain ⟨hlo, _⟩ := ilog2_spec _ hapos
  have hmq : ((|m| : Int) : ℚ) < 16777216 := by exact_mod_cast hm
  have h24 : pow2 24 = 16777216 := by
    rw [show (24 : Int) = ((24 : Nat) : Int) from rfl, pow2_natCast]
    norm_num
  generalize hedef : ilog2 |(m : ℚ) * pow2 k| = e at hlo
  have hlt : pow2 e < pow2 (24 + k) := by
    calc pow2 e ≤ |(m : ℚ) * pow2 k| := hlo
      _ = ((|m| : Int) : ℚ) * pow2 k := habs
      _ < 16777216 * pow2 k := mul_lt_mul_of_pos_right hmq hk0
      _ = pow2 (24 + k) := by rw [pow2_add, h24]
  have he : e < 24 + k := lt_of_pow2_lt_pow2 _ _ hlt
  have hulp : max e (-126) - 23 ≤ k := by
    have : max e (-126) ≤ k + 23 := max_le (by omega) (by omega)
    omega
  obtain ⟨d, hd⟩ := Int.eq_ofNat_of_zero_le (sub_nonneg.mpr hulp)
  have hkd : k = (d : Int) + (max e (-126) - 23) := by omega
  have hpk : pow2 k = (2 : ℚ) ^ d * pow2 (max e (-126) - 23) := by
    conv_lhs => rw [hkd]
    rw [pow2_add, pow2_natCast]
  have hu := pow2_pos (max e (-126) - 23)
  have hgrid : |(m : ℚ) * pow2 k| = ((|m| * 2 ^ d : Int) : ℚ) * pow2 (max e (-126) - 23) := by
    rw [habs, hpk]
    push_cast
    ring
  have hres := roundHalfEven_scaled_exact _ _ hu _ hgrid
  unfold f32Round
  simp only [hq, if_false, hedef]
  rw [hres]
  split_ifs with hneg
  · rw [abs_of_neg hneg]
    ring
  · rw [abs_of_nonneg (not_lt.mp hneg)]

/-- Checks of the binary32 model on known roundings: 0.1 becomes 13421773 / 2^27, the
ties 2^24 + 1 and 2^24 + 3 go to the even neighbour, half of the least subnormal goes to
zero, `FLT_MAX` stays finite and the tie above it overflows. -/
theorem f32_known_roundings :
    f32Round (1 / 10) = 13421773 / 134217728 ∧
    f32Round 16777217 = 16777216 ∧
    f32Round 16777219 = 16777220 ∧
    f32Round (pow2 (-150)) = 0 ∧
    f32Round (3 * pow2 (-150)) = pow2 (-148) ∧
    f32 FLT_MAX = F32.finite FLT_MAX ∧
    f32 (FLT_MAX + pow2 103) = F32.infinite false ∧
    f32 (-(FLT_MAX + pow2 103)) = F32.infinite true ∧
    f32OfInt 3 = 3 := by
  decide!

/-! ## The claims -/

/-- C10: with the temporary file creatable, `deleteStudent` returns 1 exactly when some
stored record has the given id; when it returns 1 the store afterwards is the original
sequence filtered to the records with a different id, a following `searchStudent` for
the id returns 0 and a repeated `deleteStudent` for it returns 0. -/
theorem deleteStudent_drops_every_match (delete_id : Int) (fs : FileSystem)
    (htmp : fs.tempOk = true) :
    ((deleteStudent delete_id fs).1 = 1 ↔ ∃ s ∈ records fs, s.student_id = delete_id) ∧
    ((deleteStudent delete_id fs).1 = 1 →
      records (deleteStudent delete_id fs).2 =
        (records fs).filter (fun s => decide (s.student_id ≠ delete_id)) ∧
      (searchStudent delete_id (deleteStudent delete_id fs).2).1.found = 0 ∧
      (deleteStudent delete_id (deleteStudent delete_id fs).2).1 = 0) := by
  rcases hdb : fs.database with _ | file
  · have hdel : deleteStudent delete_id fs = (0, fs) := by simp [deleteStudent, hdb]
    simp [hdel, records, hdb]
  · by_cases h : ∃ s ∈ file, s.student_id = delete_id
    · have hdel := deleteStudent_of_mem delete_id fs file hdb htmp h
      have hnone : ∀ s ∈ file.filter (fun s => decide (s.student_id ≠ delete_id)),
          s.student_id ≠ delete_id := by
        intro s hs
        simpa using (List.mem_filter.mp hs).2
      have hdel2 := deleteStudent_of_not_mem delete_id (deleteStudent delete_id fs).2 _
        (by rw [hdel]) (by rw [hdel]; exact htmp) hnone
      refine ⟨⟨fun _ => by simpa [records, hdb] using h, fun _ => by rw [hdel]⟩, fun _ => ?_⟩
      refine ⟨by simp [hdel, records, hdb], ?_, by rw [hdel2]⟩
      rw [hdel]
      simp only [searchStudent]
      rw [searchLoop_of_not_mem delete_id _ hnone]
    · have hall : ∀ s ∈ file, s.student_id ≠ delete_id := fun s hs e => h ⟨s, hs, e⟩
      have hdel := deleteStudent_of_not_mem delete_id fs file hdb htmp hall
      have hno : ¬ ∃ s ∈ records fs, s.student_id = delete_id := by
        simpa [records, hdb] using hall
      refine ⟨⟨fun h1 => ?_, fun h1 => absurd h1 hno⟩, fun h1 => ?_⟩ <;>
        (rw [hdel] at h1; simp at h1)

/-- C2: in a store whose ids are pairwise distinct and hold the given id exactly once
(temporary file creatable), `deleteStudent` returns 1, `searchStudent` for the id then
returns 0, the store is the original sequence with that one record taken out (one record
fewer, the others in their order), and every other record is still found unchanged. -/
theorem deleteStudent_removes_exactly_one (delete_id : Int) (fs : FileSystem)
    (file : List Student) (hdb : fs.database = some file) (htmp : fs.tempOk = true)
    (hdistinct : (file.map Student.student_id).Nodup)
    (honce : (file.map Student.student_id).count delete_id = 1) :
    (deleteStudent delete_id fs).1 = 1 ∧
    (searchStudent delete_id (deleteStudent delete_id fs).2).1.found = 0 ∧
    (∃ pre r post, file = pre ++ r :: post ∧ r.student_id = delete_id ∧
      records (deleteStudent delete_id fs).2 = pre ++ post) ∧
    (records (deleteStudent delete_id fs).2).length + 1 = file.length ∧
    (∀ s ∈ file, s.student_id ≠ delete_id →
      (searchStudent s.student_id (deleteStudent delete_id fs).2).1.found = 1 ∧
      (searchStudent s.student_id (deleteStudent delete_id fs).2).1.printed = some s) := by
  have hmem : ∃ s ∈ file, s.student_id = delete_id := by
    have : delete_id ∈ file.map Student.student_id :=
      List.count_pos_iff.mp (by rw [honce]; exact Nat.one_pos)
    obtain ⟨s, hs, e⟩ := List.mem_map.mp this
    exact ⟨s, hs, e⟩
  obtain ⟨pre, r, post, hsplit, hpre, hr⟩ := exists_first_match delete_id file hmem
  have hpost : ∀ s ∈ post, s.student_id ≠ delete_id := by
    intro s hs e
    have hc : 0 < (post.map Student.student_id).count delete_id :=
      List.count_pos_iff.mpr (List.mem_map.mpr ⟨s, hs, e⟩)
    rw [hsplit] at honce
    simp only [List.map_append, List.map_cons, List.count_append, List.count_cons, hr,
      beq_self_eq_true, if_true] at honce
    omega
  have hdel := deleteStudent_of_mem delete_id fs file hdb htmp hmem
  have hfilter : file.filter (fun s => decide (s.student_id ≠ delete_id)) = pre ++ post := by
    rw [hsplit, List.filter_append, List.filter_cons, filter_ne_of_not_mem delete_id pre hpre,
      filter_ne_of_not_mem delete_id post hpost]
    simp [hr]
  have hrec : records (deleteStudent delete_id fs).2 = pre ++ post := by
    rw [hdel]
    exact hfilter
  have hdb2 : (deleteStudent delete_id fs).2.database = some (pre ++ post) := by
    rw [hdel]
    exact congrArg some hfilter
  have hnone : ∀ s ∈ pre ++ post, s.student_id ≠ delete_id := by
    intro s hs
    rcases List.mem_append.mp hs with h | h
    · exact hpre s h
    · exact hpost s h
  refine ⟨by rw [hdel], ?_, ⟨pre, r, post, hsplit, hr, hrec⟩, ?_, ?_⟩
  · simp only [searchStudent, hdb2]
    rw [searchLoop_of_not_mem delete_id _ hnone]
  · rw [hrec, hsplit]
    simp
    omega
  · intro s hs hne
    have hs2 : s ∈ pre ++ post := by
      rw [hsplit] at hs
      rcases List.mem_append.mp hs with h | h
      · exact List.mem_append_left _ h
      · rcases List.mem_cons.mp h with rfl | h
        · exact absurd hr hne
        · exact List.mem_append_right _ h
    have hnd2 : ((pre ++ post).map Student.student_id).Nodup := by
      rw [hsplit] at hdistinct
      simp only [List.map_append, List.map_cons] at hdistinct ⊢
      exact List.Nodup.sublist
        (List.Sublist.append_left (List.sublist_cons_self _ _) _) hdistinct
    obtain ⟨p2, r2, q2, hsp2, hp2, hr2⟩ :=
      exists_first_match s.student_id (pre ++ post) ⟨s, hs2, rfl⟩
    have hprinted := searchLoop_of_nodup (pre ++ post) s hnd2 hs2
    have hloop := searchLoop_of_split s.student_id p2 q2 r2 hp2 hr2
    rw [← hsp2] at hloop
    simp only [searchStudent, hdb2]
    exact ⟨by rw [hloop], hprinted⟩


/-- C1 (as amended): in a store holding R1 and later R2 with the same id (temporary file
creatable), `deleteStudent` for that id returns 1 and removes both of them together with
every other record of that id, keeping the remaining records in order; a second
`deleteStudent` for the id returns 0 and leaves the file as it is. -/
theorem deleteStudent_removes_both_duplicates (delete_id : Int) (fs : FileSystem)
    (pre mid post : List Student) (R1 R2 : Student)
    (hdb : fs.database = some (pre ++ R1 :: mid ++ R2 :: post))
    (htmp : fs.tempOk = true)
    (h1 : R1.student_id = delete_id) (h2 : R2.student_id = delete_id) :
    (deleteStudent delete_id fs).1 = 1 ∧
    records (deleteStudent delete_id fs).2 =
      (pre ++ mid ++ post).filter (fun s => decide (s.student_id ≠ delete_id)) ∧
    R1 ∉ records (deleteStudent delete_id fs).2 ∧
    R2 ∉ records (deleteStudent delete_id fs).2 ∧
    (deleteStudent delete_id (deleteStudent delete_id fs).2).1 = 0 ∧
    (deleteStudent delete_id (deleteStudent delete_id fs).2).2.database =
      (deleteStudent delete_id fs).2.database := by
  have hmem : ∃ s ∈ pre ++ R1 :: mid ++ R2 :: post, s.student_id = delete_id :=
    ⟨R1, by simp, h1⟩
  have hdel := deleteStudent_of_mem delete_id fs _ hdb htmp hmem
  have hfilter : (pre ++ R1 :: mid ++ R2 :: post).filter
      (fun s => decide (s.student_id ≠ delete_id)) =
      (pre ++ mid ++ post).filter (fun s => decide (s.student_id ≠ delete_id)) := by
    simp [List.filter_append, List.filter_cons, h1, h2]
  have hrec : records (deleteStudent delete_id fs).2 =
      (pre ++ mid ++ post).filter (fun s => decide (s.student_id ≠ delete_id)) := by
    rw [hdel]
    exact hfilter
  have hnone : ∀ s ∈ (pre ++ R1 :: mid ++ R2 :: post).filter
      (fun s => decide (s.student_id ≠ delete_id)), s.student_id ≠ delete_id := by
    intro s hs
    simpa using (List.mem_filter.mp hs).2
  have hdel2 := deleteStudent_of_not_mem delete_id (deleteStudent delete_id fs).2 _
    (by rw [hdel]) (by rw [hdel]; exact htmp) hnone
  refine ⟨by rw [hdel], hrec, ?_, ?_, by rw [hdel2], by rw [hdel2]⟩
  · intro hin
    rw [hrec] at hin
    have := (List.mem_filter.mp hin).2
    simp [h1] at this
  · intro hin
    rw [hrec] at hin
    have := (List.mem_filter.mp hin).2
    simp [h2] at this

/-- C3: when no stored record has the given id, `deleteStudent` returns 0 and
`students.dat` is exactly what it was (absent, or the same contents); the
temporary file, when it was opened, is gone afterwards, and nothing else changes. -/
theorem deleteStudent_nonexistent_is_noop (delete_id : Int) (fs : FileSystem)
    (h : ∀ s ∈ records fs, s.student_id ≠ delete_id) :
    (deleteStudent delete_id fs).1 = 0 ∧
    (deleteStudent delete_id fs).2.database = fs.database ∧
    (deleteStudent delete_id fs).2.temp =
      (if fs.database.isSome ∧ fs.tempOk = true then none else fs.temp) ∧
    (deleteStudent delete_id fs).2.appendOk = fs.appendOk ∧
    (deleteStudent delete_id fs).2.tempOk = fs.tempOk := by
  rcases hdb : fs.database with _ | file
  · simp [deleteStudent, hdb]
  · by_cases htmp : fs.tempOk = true
    · have hall : ∀ s ∈ file, s.student_id ≠ delete_id := by
        simpa [records, hdb] using h
      rw [deleteStudent_of_not_mem delete_id fs file hdb htmp hall]
      simp [hdb, htmp]
    · simp [deleteStudent, hdb, htmp]

/-- C4 (as amended): after a successful `addStudent` of R the store is the old sequence
followed by R, and `searchStudent` for the id of R returns 1 and shows the earliest record
with that id: R itself when no record of the prior store has the id, and otherwise the
first prior record that has it. -/
theorem addStudent_then_searchStudent (R : Student) (fs : FileSystem)
    (hadd : (addStudent R fs).1 = 1) :
    records (addStudent R fs).2 = records fs ++ [R] ∧
    (searchStudent R.student_id (addStudent R fs).2).1.found = 1 ∧
    ((∀ s ∈ records fs, s.student_id ≠ R.student_id) →
      (searchStudent R.student_id (addStudent R fs).2).1.printed = some R) ∧
    (∀ pre r post, records fs = pre ++ r :: post →
      (∀ s ∈ pre, s.student_id ≠ R.student_id) → r.student_id = R.student_id →
      (searchStudent R.student_id (addStudent R fs).2).1.printed = some r) := by
  have hok : fs.appendOk = true := by
    by_contra hno
    simp [addStudent, hno] at hadd
  have hfs : (addStudent R fs).2 = { fs with database := some (records fs ++ [R]) } := by
    simp [addStudent, hok]
  have hsearch : (searchStudent R.student_id (addStudent R fs).2).1 =
      searchLoop R.student_id (records fs ++ [R]) := by
    rw [hfs]
    rfl
  rw [hsearch]
  refine ⟨by rw [hfs]; rfl, ?_, ?_, ?_⟩
  · obtain ⟨pre, r, post, hsplit, hpre, hr⟩ :=
      exists_first_match R.student_id (records fs ++ [R]) ⟨R, by simp, rfl⟩
    rw [hsplit, searchLoop_of_split R.student_id pre post r hpre hr]
  · intro hnone
    rw [searchLoop_of_split R.student_id (records fs) [] R hnone rfl]
  · intro pre r post hsplit hpre hr
    rw [hsplit, List.append_assoc, List.cons_append,
      searchLoop_of_split R.student_id pre (post ++ [R]) r hpre hr]

/-- C9: `searchStudent` returns 1 exactly when some stored record has the id and 0
otherwise; when it returns 1 the store splits as `pre ++ r :: post` with no record of
`pre` having the id, `r` having it, `r` the record shown, and `post` never read.  The
file system is left as it was. -/
theorem searchStudent_first_match (search_id : Int) (fs : FileSystem) :
    ((searchStudent search_id fs).1.found = 1 ↔
      ∃ s ∈ records fs, s.student_id = search_id) ∧
    ((searchStudent search_id fs).1.found = 1 →
      ∃ pre r post, records fs = pre ++ r :: post ∧
        (∀ s ∈ pre, s.student_id ≠ search_id) ∧ r.student_id = search_id ∧
        (searchStudent search_id fs).1 = { found := 1, printed := some r, unread := post }) ∧
    ((searchStudent search_id fs).1.found ≠ 1 →
      (searchStudent search_id fs).1 = { found := 0, printed := none, unread := [] }) ∧
    (searchStudent search_id fs).2 = fs := by
  have hloop : (searchStudent search_id fs).1 = searchLoop search_id (records fs) := by
    rcases hdb : fs.database with _ | file
    · simp [searchStudent, hdb, records, searchLoop]
    · simp [searchStudent, hdb, records]
  have hfs : (searchStudent search_id fs).2 = fs := by
    rcases hdb : fs.database with _ | file <;> simp [searchStudent, hdb]
  rw [hloop]
  by_cases h : ∃ s ∈ records fs, s.student_id = search_id
  · obtain ⟨pre, r, post, hsplit, hpre, hr⟩ := exists_first_match search_id _ h
    have hres := searchLoop_of_split search_id pre post r hpre hr
    rw [← hsplit] at hres
    refine ⟨⟨fun _ => h, fun _ => by rw [hres]⟩, fun _ => ?_, fun hne => ?_, hfs⟩
    · exact ⟨pre, r, post, hsplit, hpre, hr, hres⟩
    · rw [hres] at hne
      exact absurd rfl hne
  · have hall : ∀ s ∈ records fs, s.student_id ≠ search_id := fun s hs e => h ⟨s, hs, e⟩
    have hres := searchLoop_of_not_mem search_id _ hall
    refine ⟨⟨fun h1 => ?_, fun h1 => absurd h1 h⟩, fun h1 => ?_, fun _ => hres, hfs⟩ <;>
      (rw [hres] at h1; simp at h1)

/-- C7: when `students.dat` does not exist, `searchStudent` returns 0 and shows nothing,
`displayAllStudents` shows no row and returns 0, `deleteStudent` returns 0, and
`calculateStats` reports the missing file without computing an average; each of them
leaves the file system as it was, so no file is created. -/
theorem missing_file_is_empty_store (fs : FileSystem) (hdb : fs.database = none)
    (id : Int) :
    searchStudent id fs = ({ found := 0, printed := none, unread := [] }, fs) ∧
    displayAllStudents fs = ([], 0, fs) ∧
    deleteStudent id fs = (0, fs) ∧
    calculateStats fs = (StatsOutput.noDatabaseFile, fs) := by
  simp [searchStudent, displayAllStudents, deleteStudent, calculateStats, hdb]

/-- C8: `displayAllStudents` shows the stored records, each once, in file order, and
returns their number; whenever `students.dat` can be opened for appending, `addStudent`
returns 1 and puts the new record after all existing ones, changing nothing else (and
when it cannot be opened it returns 0 and changes nothing); so adding records with ids
1, 2, 3 to an empty store and listing shows them in that order, and after
`deleteStudent` of id 2 the listing shows the records with ids 1 and 3. -/
theorem listing_order (fs : FileSystem) :
    displayAllStudents fs = (records fs, ((records fs).length : Int), fs) ∧
    (∀ R, fs.appendOk = true →
      addStudent R fs = (1, { fs with database := some (records fs ++ [R]) })) ∧
    (∀ R, fs.appendOk = false → addStudent R fs = (0, fs)) ∧
    (∀ R, (addStudent R fs).1 = 1 → records (addStudent R fs).2 = records fs ++ [R]) ∧
    (∀ r1 r2 r3 : Student, r1.student_id = 1 → r2.student_id = 2 → r3.student_id = 3 →
      records fs = [] → fs.appendOk = true → fs.tempOk = true →
      (displayAllStudents (addStudent r3 (addStudent r2 (addStudent r1 fs).2).2).2).1 =
        [r1, r2, r3] ∧
      (displayAllStudents (addStudent r3 (addStudent r2 (addStudent r1 fs).2).2).2).2.1 = 3 ∧
      (deleteStudent 2 (addStudent r3 (addStudent r2 (addStudent r1 fs).2).2).2).1 = 1 ∧
      (displayAllStudents
        (deleteStudent 2 (addStudent r3 (addStudent r2 (addStudent r1 fs).2).2).2).2).1 =
        [r1, r3] ∧
      (displayAllStudents
        (deleteStudent 2 (addStudent r3 (addStudent r2 (addStudent r1 fs).2).2).2).2).2.1 = 2)
    := by
  have hdisp : ∀ g : FileSystem,
      displayAllStudents g = (records g, ((records g).length : Int), g) := by
    intro g
    rcases hdb : g.database with _ | file
    · simp [displayAllStudents, hdb, records]
    · simp [displayAllStudents, hdb, records, displayLoop_eq]
  refine ⟨hdisp fs, ?_, ?_, ?_, ?_⟩
  · intro R hok
    simp [addStudent, hok]
  · intro R hno
    simp [addStudent, hno]
  · intro R hadd
    have hok : fs.appendOk = true := by
      by_contra hno
      simp [addStudent, hno] at hadd
    simp [addStudent, hok, records]
  · intro r1 r2 r3 h1 h2 h3 hempty hok htmp
    have hadd3 : (addStudent r3 (addStudent r2 (addStudent r1 fs).2).2).2 =
        { fs with database := some [r1, r2, r3] } := by
      simp [addStudent, hok, records, hempty] at hempty ⊢
      simp [hempty]
    have hdel : deleteStudent 2 { fs with database := some [r1, r2, r3] } =
        (1, { fs with database := some [r1, r3], temp := none }) := by
      rw [deleteStudent_of_mem 2 { fs with database := some [r1, r2, r3] } [r1, r2, r3] rfl
        htmp ⟨r2, by simp, h2⟩]
      simp [List.filter_cons, h1, h2, h3]
    rw [hadd3, hdel]
    simp [hdisp, records]


theorem exists_greatest_gpa (file : List Student) (hne : file ≠ []) :
    ∃ M, IsGreatestGpa file M := by
  induction file with
  | nil => exact absurd rfl hne
  | cons s rest ih =>
    by_cases hrest : rest = []
    · subst hrest
      exact ⟨s.gpa, ⟨s, by simp, rfl⟩, by simp⟩
    · obtain ⟨M, ⟨t, ht, e⟩, hM⟩ := ih hrest
      by_cases hle : s.gpa ≤ M
      · refine ⟨M, ⟨t, by simp [ht], e⟩, ?_⟩
        intro u hu
        rcases List.mem_cons.mp hu with rfl | hu
        · exact hle
        · exact hM u hu
      · refine ⟨s.gpa, ⟨s, by simp, rfl⟩, ?_⟩
        intro u hu
        rcases List.mem_cons.mp hu with rfl | hu
        · exact le_refl _
        · exact le_trans (hM u hu) (le_of_lt (not_le.mp hle))

theorem exists_least_gpa (file : List Student) (hne : file ≠ []) :
    ∃ m, IsLeastGpa file m := by
  induction file with
  | nil => exact absurd rfl hne
  | cons s rest ih =>
    by_cases hrest : rest = []
    · subst hrest
      exact ⟨s.gpa, ⟨s, by simp, rfl⟩, by simp⟩
    · obtain ⟨m, ⟨t, ht, e⟩, hm⟩ := ih hrest
      by_cases hle : m ≤ s.gpa
      · refine ⟨m, ⟨t, by simp [ht], e⟩, ?_⟩
        intro u hu
        rcases List.mem_cons.mp hu with rfl | hu
        · exact hle
        · exact hm u hu
      · refine ⟨s.gpa, ⟨s, by simp, rfl⟩, ?_⟩
        intro u hu
        rcases List.mem_cons.mp hu with rfl | hu
        · exact le_refl _
        · exact le_trans (le_of_lt (not_le.mp hle)) (hm u hu)

/-- What `calculateStats` prints for a non-empty file, in terms of the loop. -/
theorem calculateStats_of_nonempty (fs : FileSystem) (file : List Student)
    (hdb : fs.database = some file) (hne : file ≠ []) :
    (calculateStats fs).1 =
      StatsOutput.report file.length (specAverage (file.map Student.gpa))
        (statsLoop file
          { count := 0, total_gpa := F32.finite 0, highest_gpa := 0, lowest_gpa := 4 }).highest_gpa
        (statsLoop file
          { count := 0, total_gpa := F32.finite 0, highest_gpa := 0, lowest_gpa := 4 }).lowest_gpa
    := by
  have hpos : 0 < file.length := List.length_pos.mpr hne
  have hcount := statsLoop_count file
    { count := 0, total_gpa := F32.finite 0, highest_gpa := 0, lowest_gpa := 4 }
  have htotal := statsLoop_total file
    { count := 0, total_gpa := F32.finite 0, highest_gpa := 0, lowest_gpa := 4 }
  simp only [zero_add] at hcount
  have hgt : (statsLoop file
      { count := 0, total_gpa := F32.finite 0, highest_gpa := 0, lowest_gpa := 4 }).count > 0 := by
    rw [hcount]
    exact_mod_cast hpos
  unfold calculateStats
  rw [hdb]
  simp only [hgt, if_true]
  rw [hcount, htotal]
  simp [specAverage]

/-- The highest and lowest values `calculateStats` prints, for a non-empty file. -/
theorem statsLoop_extremes (file : List Student) (M m : ℚ)
    (hM : IsGreatestGpa file M) (hm : IsLeastGpa file m) :
    (statsLoop file
      { count := 0, total_gpa := F32.finite 0, highest_gpa := 0, lowest_gpa := 4 }).highest_gpa
      = max 0 M ∧
    (statsLoop file
      { count := 0, total_gpa := F32.finite 0, highest_gpa := 0, lowest_gpa := 4 }).lowest_gpa
      = min 4 m := by
  obtain ⟨h1, h2, h3⟩ := statsLoop_highest file
    { count := 0, total_gpa := F32.finite 0, highest_gpa := 0, lowest_gpa := 4 }
  obtain ⟨l1, l2, l3⟩ := statsLoop_lowest file
    { count := 0, total_gpa := F32.finite 0, highest_gpa := 0, lowest_gpa := 4 }
  simp only at h1 h3 l1 l3
  obtain ⟨⟨sM, hsM, eM⟩, hMle⟩ := hM
  obtain ⟨⟨sm, hsm, em⟩, hmle⟩ := hm
  constructor
  · apply le_antisymm
    · rcases h3 with h3 | ⟨t, ht, e⟩
      · rw [h3]
        exact le_max_left _ _
      · rw [← e]
        exact le_trans (hMle t ht) (le_max_right _ _)
    · exact max_le h1 (eM ▸ h2 sM hsM)
  · apply le_antisymm
    · exact le_min l1 (em ▸ l2 sm hsm)
    · rcases l3 with l3 | ⟨t, ht, e⟩
      · rw [l3]
        exact min_le_left _ _
      · rw [← e]
        exact le_trans (min_le_right _ _) (hmle t ht)

/-- C5 (as amended): for a non-empty store of finite gpa values, `calculateStats` reports
as highest the greater of `0.0` and the greatest stored gpa, and as lowest the lesser of
`4.0` and the least stored gpa; the count is the number of records. -/
theorem calculateStats_extremes_start_at_bounds (fs : FileSystem) (file : List Student)
    (hdb : fs.database = some file) (hne : file ≠ []) :
    ∃ M m, IsGreatestGpa file M ∧ IsLeastGpa file m ∧
      (calculateStats fs).1 =
        StatsOutput.report file.length (specAverage (file.map Student.gpa))
          (max 0 M) (min 4 m) := by
  obtain ⟨M, hM⟩ := exists_greatest_gpa file hne
  obtain ⟨m, hm⟩ := exists_least_gpa file hne
  obtain ⟨hhi, hlo⟩ := statsLoop_extremes file M m hM hm
  refine ⟨M, m, hM, hm, ?_⟩
  rw [calculateStats_of_nonempty fs file hdb hne, hhi, hlo]

/-- The `float` average of 3.0, 4.0, 2.0 is exactly 3.0. -/
theorem specAverage_example : specAverage [3, 4, 2] = F32.finite 3 := by
  decide!

/-- When no rounding occurs in the running sums, the `float` sum is the exact sum. -/
theorem foldl_f32Add_exact (gpas : List ℚ) (t : ℚ)
    (h : ∀ k, 1 ≤ k → k ≤ gpas.length →
      f32 (t + (gpas.take k).sum) = F32.finite (t + (gpas.take k).sum)) :
    gpas.foldl f32Add (F32.finite t) = F32.finite (t + gpas.sum) := by
  induction gpas generalizing t with
  | nil => simp
  | cons g rest ih =>
    have h1 := h 1 (le_refl 1) (by simp)
    simp only [List.take_succ_cons, List.take_zero, List.sum_cons, List.sum_nil,
      add_zero] at h1
    simp only [List.foldl_cons, f32Add, h1, List.sum_cons]
    rw [ih (t + g), add_assoc]
    intro k hk1 hk
    have h2 := h (k + 1) (by omega) (by simpa using hk)
    simp only [List.take_succ_cons, List.sum_cons] at h2
    rw [add_assoc]
    exact h2

/-- When neither the running sums, nor the conversion of the count, nor the quotient is
rounded, the `float` average is the exact sum divided by the number of values. -/
theorem specAverage_exact (gpas : List ℚ)
    (hsum : ∀ k, 1 ≤ k → k ≤ gpas.length →
      f32 ((gpas.take k).sum) = F32.finite ((gpas.take k).sum))
    (hcount : f32OfInt gpas.length = gpas.length)
    (hquot : f32 (gpas.sum / gpas.length) = F32.finite (gpas.sum / gpas.length)) :
    specAverage gpas = F32.finite (gpas.sum / gpas.length) := by
  have hfold := foldl_f32Add_exact gpas 0 (by simpa using hsum)
  rw [zero_add] at hfold
  rw [specAverage, hfold]
  simp only [f32DivInt, hcount]
  exact hquot

/-- C6: for a non-empty store whose gpa values all lie in `[0.0, 4.0]`, `calculateStats`
reports the number of records, the `float` sum of the gpas divided by that number (the
exact sum divided by the number whenever no operation rounds), the greatest gpa and the
least gpa; for gpas 3.0, 4.0, 2.0 it reports 3, 3.0, 4.0 and 2.0. -/
theorem calculateStats_in_domain (fs : FileSystem) (file : List Student)
    (hdb : fs.database = some file) (hne : file ≠ [])
    (hdom : ∀ s ∈ file, 0 ≤ s.gpa ∧ s.gpa ≤ 4) :
    (∃ M m, IsGreatestGpa file M ∧ IsLeastGpa file m ∧
      (calculateStats fs).1 =
        StatsOutput.report file.length (specAverage (file.map Student.gpa)) M m) ∧
    ((∀ k, 1 ≤ k → k ≤ file.length →
        f32 (((file.map Student.gpa).take k).sum) =
          F32.finite (((file.map Student.gpa).take k).sum)) →
      f32OfInt file.length = file.length →
      f32 ((file.map Student.gpa).sum / file.length) =
        F32.finite ((file.map Student.gpa).sum / file.length) →
      specAverage (file.map Student.gpa) =
        F32.finite ((file.map Student.gpa).sum / file.length)) ∧
    (∀ a b c : Student, a.gpa = 3 → b.gpa = 4 → c.gpa = 2 → file = [a, b, c] →
      (calculateStats fs).1 = StatsOutput.report 3 (F32.finite 3) 4 2) := by
  obtain ⟨M, hM⟩ := exists_greatest_gpa file hne
  obtain ⟨m, hm⟩ := exists_least_gpa file hne
  obtain ⟨hhi, hlo⟩ := statsLoop_extremes file M m hM hm
  have hM0 : 0 ≤ M := by
    obtain ⟨⟨s, hs, e⟩, _⟩ := hM
    exact e ▸ (hdom s hs).1
  have hm4 : m ≤ 4 := by
    obtain ⟨⟨s, hs, e⟩, _⟩ := hm
    exact e ▸ (hdom s hs).2
  have hrep : (calculateStats fs).1 =
      StatsOutput.report file.length (specAverage (file.map Student.gpa)) M m := by
    rw [calculateStats_of_nonempty fs file hdb hne, hhi, hlo, max_eq_right hM0,
      min_eq_right hm4]
  refine ⟨⟨M, m, hM, hm, hrep⟩, ?_, ?_⟩
  · intro hsum hcount hquot
    have hlen : (file.map Student.gpa).length = file.length := List.length_map _ _
    have hex := specAverage_exact (file.map Student.gpa) (by rw [hlen]; exact hsum)
      (by rw [hlen]; exact hcount) (by rw [hlen]; exact hquot)
    rw [hlen] at hex
    exact hex
  intro a b c ha hb hc hfile
  subst hfile
  have hM4 : M = 4 := by
    apply le_antisymm
    · obtain ⟨⟨s, hs, e⟩, _⟩ := hM
      exact e ▸ (hdom s hs).2
    · exact hb ▸ hM.2 b (by simp)
  have hm2 : m = 2 := by
    apply le_antisymm
    · exact hc ▸ hm.2 c (by simp)
    · obtain ⟨⟨s, hs, e⟩, _⟩ := hm
      rw [← e]
      simp only [List.mem_cons, List.mem_singleton, List.not_mem_nil, or_false] at hs
      rcases hs with rfl | rfl | rfl
      · rw [ha]; norm_num
      · rw [hb]; norm_num
      · rw [hc]
  rw [hrep, hM4, hm2]
  simp only [List.map_cons, List.map_nil, ha, hb, hc, specAverage_example]
  rfl

/-! ## Counterexamples to the claims that fail, and instances of the theorems -/

/-- C1 fails on the store `[dave, erin]`, both with id 7: the first `deleteStudent 7`
returns 1 and leaves an empty file, so `erin` is gone too, and the second returns 0. -/
theorem deleteStudent_first_match_only_counterexample :
    (deleteStudent 7 (store [dave, erin])).1 = 1 ∧
    records (deleteStudent 7 (store [dave, erin])).2 = [] ∧
    erin ∉ records (deleteStudent 7 (store [dave, erin])).2 ∧
    (deleteStudent 7 (deleteStudent 7 (store [dave, erin])).2).1 = 0 ∧
    ¬ (records (deleteStudent 7 (store [dave, erin])).2 = [erin] ∧
       (deleteStudent 7 (deleteStudent 7 (store [dave, erin])).2).1 = 1) := by
  decide!

/-- An instance of C1 as amended: deleting id 7 from `[alice, dave, bob, erin, carol]`. -/
theorem deleteStudent_removes_both_duplicates_witness :
    (store [alice, dave, bob, erin, carol]).database =
      some ([alice] ++ dave :: [bob] ++ erin :: [carol]) ∧
    (store [alice, dave, bob, erin, carol]).tempOk = true ∧
    dave.student_id = 7 ∧ erin.student_id = 7 ∧
    (deleteStudent 7 (store [alice, dave, bob, erin, carol])).1 = 1 ∧
    records (deleteStudent 7 (store [alice, dave, bob, erin, carol])).2 =
      [alice, bob, carol] ∧
    (deleteStudent 7 (deleteStudent 7 (store [alice, dave, bob, erin, carol])).2).1 = 0 :=
  have h := deleteStudent_removes_both_duplicates 7 (store [alice, dave, bob, erin, carol])
    [alice] [bob] [carol] dave erin rfl rfl rfl rfl
  ⟨rfl, rfl, rfl, rfl, h.1, h.2.1.trans (by decide!), h.2.2.2.2.1⟩

/-- An instance of C2: deleting id 2 from `[alice, bob, carol]`. -/
theorem deleteStudent_removes_exactly_one_witness :
    (store [alice, bob, carol]).database = some [alice, bob, carol] ∧
    (store [alice, bob, carol]).tempOk = true ∧
    ([alice, bob, carol].map Student.student_id).Nodup ∧
    ([alice, bob, carol].map Student.student_id).count 2 = 1 ∧
    (deleteStudent 2 (store [alice, bob, carol])).1 = 1 ∧
    (searchStudent 2 (deleteStudent 2 (store [alice, bob, carol])).2).1.found = 0 ∧
    (records (deleteStudent 2 (store [alice, bob, carol])).2).length + 1 = 3 ∧
    (searchStudent 3 (deleteStudent 2 (store [alice, bob, carol])).2).1.printed =
      some carol :=
  have h := deleteStudent_removes_exactly_one 2 (store [alice, bob, carol])
    [alice, bob, carol] rfl rfl (by decide!) (by decide!)
  ⟨rfl, rfl, by decide!, by decide!, h.1, h.2.1, h.2.2.2.1,
    (h.2.2.2.2 carol (by decide!) (by decide!)).2⟩

/-- An instance of C3: deleting the absent id 3 from `[alice, bob]`. -/
theorem deleteStudent_nonexistent_is_noop_witness :
    (∀ s ∈ records (store [alice, bob]), s.student_id ≠ 3) ∧
    (deleteStudent 3 (store [alice, bob])).1 = 0 ∧
    (deleteStudent 3 (store [alice, bob])).2.database = some [alice, bob] :=
  have h := deleteStudent_nonexistent_is_noop 3 (store [alice, bob]) (by decide!)
  ⟨by decide!, h.1, h.2.1⟩

/-- C4 fails on the store `[dave]`: `addStudent` of `erin`, who has the id 7 of `dave`,
succeeds, and `searchStudent 7` then shows `dave`, not `erin`. -/
theorem addStudent_then_searchStudent_counterexample :
    (addStudent erin (store [dave])).1 = 1 ∧
    (searchStudent erin.student_id (addStudent erin (store [dave])).2).1.found = 1 ∧
    (searchStudent erin.student_id (addStudent erin (store [dave])).2).1.printed = some dave ∧
    ¬ ((searchStudent erin.student_id (addStudent erin (store [dave])).2).1.printed =
        some erin) := by
  decide!

/-- An instance of C4 as amended: adding `carol` to `[alice, bob]` and searching id 3. -/
theorem addStudent_then_searchStudent_witness :
    (addStudent carol (store [alice, bob])).1 = 1 ∧
    records (addStudent carol (store [alice, bob])).2 = [alice, bob, carol] ∧
    (searchStudent 3 (addStudent carol (store [alice, bob])).2).1.found = 1 ∧
    (searchStudent 3 (addStudent carol (store [alice, bob])).2).1.printed = some carol :=
  have h := addStudent_then_searchStudent carol (store [alice, bob]) (by decide!)
  ⟨by decide!, h.1, h.2.1, h.2.2.1 (by decide!)⟩

/-- C5 fails on the store `[frank]`, whose only gpa is 5.0: `calculateStats` reports the
lowest GPA 4.0, which is not the least stored gpa; and on the store `[grace]`, whose only
gpa is -1.0, it reports the highest GPA 0.0. -/
theorem calculateStats_literal_extremes_counterexample :
    (calculateStats (store [frank])).1 = StatsOutput.report 1 (F32.finite 5) 5 4 ∧
    IsLeastGpa [frank] 5 ∧
    (calculateStats (store [grace])).1 = StatsOutput.report 1 (F32.finite (-1)) 0 (-1) ∧
    IsGreatestGpa [grace] (-1) ∧
    ¬ (∃ avg M m, IsGreatestGpa [frank] M ∧ IsLeastGpa [frank] m ∧
        (calculateStats (store [frank])).1 = StatsOutput.report 1 avg M m) := by
  have hfrank : (calculateStats (store [frank])).1 =
      StatsOutput.report 1 (F32.finite 5) 5 4 := by decide!
  have hgrace : (calculateStats (store [grace])).1 =
      StatsOutput.report 1 (F32.finite (-1)) 0 (-1) := by decide!
  refine ⟨hfrank, ⟨⟨frank, by simp, rfl⟩, by simp [frank]⟩, hgrace,
    ⟨⟨grace, by simp, rfl⟩, by simp [grace]⟩, ?_⟩
  rintro ⟨avg, M, m, _, ⟨⟨s, hs, e⟩, _⟩, hout⟩
  rw [hfrank] at hout
  simp only [List.mem_singleton] at hs
  subst hs
  have h4 : (4 : ℚ) = m := by
    injection hout
  rw [← h4] at e
  exact absurd e (by decide!)

/-- An instance of C5 as amended, on the store `[grace, frank]`. -/
theorem calculateStats_extremes_start_at_bounds_witness :
    (store [grace, frank]).database = some [grace, frank] ∧ [grace, frank] ≠ [] ∧
    ∃ M m, IsGreatestGpa [grace, frank] M ∧ IsLeastGpa [grace, frank] m ∧
      (calculateStats (store [grace, frank])).1 =
        StatsOutput.report ([grace, frank].length : Int)
          (specAverage ([grace, frank].map Student.gpa)) (max 0 M) (min 4 m) :=
  ⟨rfl, by decide!,
    calculateStats_extremes_start_at_bounds (store [grace, frank]) [grace, frank] rfl
      (by decide!)⟩

/-- An instance of C6: the gpas 3.0, 4.0, 2.0 of `[alice, bob, carol]`. -/
theorem calculateStats_in_domain_witness :
    (store [alice, bob, carol]).database = some [alice, bob, carol] ∧
    [alice, bob, carol] ≠ [] ∧
    (∀ s ∈ [alice, bob, carol], 0 ≤ s.gpa ∧ s.gpa ≤ 4) ∧
    (calculateStats (store [alice, bob, carol])).1 =
      StatsOutput.report 3 (F32.finite 3) 4 2 :=
  have hdom : ∀ s ∈ [alice, bob, carol], 0 ≤ s.gpa ∧ s.gpa ≤ 4 := by decide!
  ⟨rfl, by decide!, hdom,
    (calculateStats_in_domain (store [alice, bob, carol]) [alice, bob, carol] rfl
      (by decide!) hdom).2.2 alice bob carol rfl rfl rfl rfl⟩

/-- An instance of C7, on the file system without `students.dat`. -/
theorem missing_file_is_empty_store_witness :
    noStore.database = none ∧
    searchStudent 5 noStore = ({ found := 0, printed := none, unread := [] }, noStore) ∧
    displayAllStudents noStore = ([], 0, noStore) ∧
    deleteStudent 5 noStore = (0, noStore) ∧
    calculateStats noStore = (StatsOutput.noDatabaseFile, noStore) :=
  ⟨rfl, missing_file_is_empty_store noStore rfl 5⟩

/-- An instance of C8: adding `dave` to the three-record store, and adding `alice`, `bob`,
`carol` to the empty store, then deleting id 2. -/
theorem listing_order_witness :
    (store [alice, bob, carol]).appendOk = true ∧
    addStudent dave (store [alice, bob, carol]) = (1, store [alice, bob, carol, dave]) ∧
    displayAllStudents (store [alice, bob, carol, dave]) =
      ([alice, bob, carol, dave], 4, store [alice, bob, carol, dave]) ∧
    records noStore = [] ∧
    (displayAllStudents (addStudent carol (addStudent bob (addStudent alice noStore).2).2).2).1
      = [alice, bob, carol] ∧
    (displayAllStudents
      (deleteStudent 2 (addStudent carol (addStudent bob (addStudent alice noStore).2).2).2).2).1
      = [alice, carol] :=
  have hadd := (listing_order (store [alice, bob, carol])).2.1 dave rfl
  have hshow := (listing_order (store [alice, bob, carol, dave])).1
  have h := (listing_order noStore).2.2.2.2 alice bob carol rfl rfl rfl rfl rfl rfl
  ⟨rfl, hadd, hshow, rfl, h.1, h.2.2.2.1⟩

/-- An instance of C9: searching ids 7 and 4 in `[bob, dave, alice, erin]`. -/
theorem searchStudent_first_match_witness :
    (searchStudent 7 (store [bob, dave, alice, erin])).1.found = 1 ∧
    (∃ pre r post, records (store [bob, dave, alice, erin]) = pre ++ r :: post ∧
      (∀ s ∈ pre, s.student_id ≠ 7) ∧ r.student_id = 7 ∧
      (searchStudent 7 (store [bob, dave, alice, erin])).1 =
        { found := 1, printed := some r, unread := post }) ∧
    (searchStudent 4 (store [bob, dave, alice, erin])).1 =
      { found := 0, printed := none, unread := [] } :=
  have h := searchStudent_first_match 7 (store [bob, dave, alice, erin])
  have h4 := searchStudent_first_match 4 (store [bob, dave, alice, erin])
  have hfound : (searchStudent 7 (store [bob, dave, alice, erin])).1.found = 1 :=
    h.1.mpr ⟨dave, by decide!, rfl⟩
  have hnot : (searchStudent 4 (store [bob, dave, alice, erin])).1.found ≠ 1 :=
    fun h1 => absurd (h4.1.mp h1) (by decide!)
  ⟨hfound, h.2.1 hfound, h4.2.2.1 hnot⟩

/-- An instance of C10: deleting id 7 from `[dave, bob, erin]`. -/
theorem deleteStudent_drops_every_match_witness :
    (store [dave, bob, erin]).tempOk = true ∧
    (deleteStudent 7 (store [dave, bob, erin])).1 = 1 ∧
    records (deleteStudent 7 (store [dave, bob, erin])).2 = [bob] ∧
    (searchStudent 7 (deleteStudent 7 (store [dave, bob, erin])).2).1.found = 0 ∧
    (deleteStudent 7 (deleteStudent 7 (store [dave, bob, erin])).2).1 = 0 :=
  have h := deleteStudent_drops_every_match 7 (store [dave, bob, erin]) rfl
  have h1 : (deleteStudent 7 (store [dave, bob, erin])).1 = 1 :=
    h.1.mpr ⟨dave, by decide!, rfl⟩
  ⟨rfl, h1, (h.2 h1).1.trans (by decide!), (h.2 h1).2.1, (h.2 h1).2.2⟩

end StudentDB
